import Mathlib

/-!
Shallow embedding of the humpback-acoustic-embed core, translated from the
Python sources under src/humpback, together with theorems settling the
frozen claims about the job queue, the windowing discipline, the artifact
writer, the clustering persistence and the encoding signature.

Conventions of the embedding:
* machine integers and timestamps are `Nat`/`Int`;
* SQL tables are `List` of row structures; an `UPDATE ... WHERE id = x`
  is a `List.map` that rewrites the matching row (primary-key uniqueness
  is carried as a `Nodup` hypothesis where it matters);
* `datetime.now()` values are explicit `now`/`cutoff` parameters;
* fallible code returns `Option`/`Except`.
-/

namespace Humpback

/-- Job status enum shared by both job kinds
(src/humpback/models/processing.py `JobStatus`). -/
inductive JobStatus where
  | queued
  | running
  | complete
  | failed
  | canceled
deriving DecidableEq, Repr

/-- A row of the `processing_jobs` table, restricted to the columns the
queue operations read or write (src/humpback/models/processing.py
`ProcessingJob`). -/
structure ProcessingJob where
  id : Nat
  encodingSignature : String
  createdAt : Nat
  updatedAt : Nat
  status : JobStatus
  errorMessage : Option String
deriving DecidableEq, Repr

/-- A row of the `clustering_jobs` table (src/humpback/models/clustering.py
`ClusteringJob`); `embeddingSetIds` is the decoded JSON id list. -/
structure ClusteringJob where
  id : Nat
  embeddingSetIds : List Nat
  createdAt : Nat
  updatedAt : Nat
  status : JobStatus
  errorMessage : Option String
deriving DecidableEq, Repr

/-- The subquery of `claim_processing_job`
(src/humpback/workers/queue.py lines 63-67): encoding signatures of all
jobs currently in status `running`. -/
def runningSignatures (jobs : List ProcessingJob) : List String :=
  (jobs.filter (fun j => j.status == JobStatus.running)).map
    (fun j => j.encodingSignature)

/-- The WHERE clause of `claim_processing_job`
(src/humpback/workers/queue.py lines 72-75): queued, and signature not
held by any running job. -/
def eligibleB (jobs : List ProcessingJob) (j : ProcessingJob) : Bool :=
  j.status == JobStatus.queued &&
    !((runningSignatures jobs).contains j.encodingSignature)

/-- One step of selecting the row with minimal `created_at`
(the `ORDER BY created_at LIMIT 1` of the claim query). -/
def pickOlder (acc : Option ProcessingJob) (j : ProcessingJob) :
    Option ProcessingJob :=
  match acc with
  | none => some j
  | some k => if j.createdAt < k.createdAt then some j else some k

/-- `ORDER BY created_at LIMIT 1`: a row of the list with minimal
`created_at` (first such row on ties, a deterministic refinement of the
unordered SQL tie-break). -/
def oldestFirst (l : List ProcessingJob) : Option ProcessingJob :=
  l.foldl pickOlder none

/-- `claim_processing_job(session)` (src/humpback/workers/queue.py lines
56-87): select the oldest queued job whose signature is not running,
mark it running, stamp `updated_at := now`; return the claimed job and
the updated table, or `none` and the unchanged table. -/
def claim_processing_job (jobs : List ProcessingJob) (now : Nat) :
    Option ProcessingJob × List ProcessingJob :=
  match oldestFirst (jobs.filter (eligibleB jobs)) with
  | none => (none, jobs)
  | some j =>
      let j' : ProcessingJob :=
        { j with status := JobStatus.running, updatedAt := now }
      (some j', jobs.map (fun k => if k.id == j.id then j' else k))

/-- `complete_processing_job(session, job_id)`
(src/humpback/workers/queue.py lines 90-99): unconditional
`UPDATE ... WHERE id = job_id SET status = complete, updated_at = now`. -/
def complete_processing_job (jobs : List ProcessingJob) (jobId : Nat)
    (now : Nat) : List ProcessingJob :=
  jobs.map (fun j =>
    if j.id == jobId then
      { j with status := JobStatus.complete, updatedAt := now }
    else j)

/-- `fail_processing_job(session, job_id, error)`
(src/humpback/workers/queue.py lines 102-114). -/
def fail_processing_job (jobs : List ProcessingJob) (jobId : Nat)
    (error : String) (now : Nat) : List ProcessingJob :=
  jobs.map (fun j =>
    if j.id == jobId then
      { j with status := JobStatus.failed, errorMessage := some error,
               updatedAt := now }
    else j)

/-- `cancel_processing_job(session, job_id)`
(src/humpback/services/processing_service.py lines 86-95): load the job;
if queued or running set it to canceled, otherwise leave the table
untouched; return the (possibly updated) job. -/
def cancel_processing_job (jobs : List ProcessingJob) (jobId : Nat) :
    Option ProcessingJob × List ProcessingJob :=
  match jobs.find? (fun j => j.id == jobId) with
  | none => (none, jobs)
  | some j =>
      if j.status == JobStatus.queued || j.status == JobStatus.running then
        let j' : ProcessingJob := { j with status := JobStatus.canceled }
        (some j', jobs.map (fun k => if k.id == jobId then j' else k))
      else
        (some j, jobs)

/-- The WHERE clause of the stale sweep: running and update timestamp
strictly older than the cutoff (src/humpback/workers/queue.py lines
23-25 and 38-41). -/
def staleP (cutoff : Nat) (status : JobStatus) (updatedAt : Nat) : Bool :=
  status == JobStatus.running && updatedAt < cutoff

/-- The per-row effect of the stale sweep on a processing job
(src/humpback/workers/queue.py lines 21-31). -/
def recoverProcessing (cutoff now : Nat) (j : ProcessingJob) :
    ProcessingJob :=
  if staleP cutoff j.status j.updatedAt then
    { j with status := JobStatus.queued, updatedAt := now }
  else j

/-- The per-row effect of the stale sweep on a clustering job
(src/humpback/workers/queue.py lines 36-46). -/
def recoverClustering (cutoff now : Nat) (j : ClusteringJob) :
    ClusteringJob :=
  if staleP cutoff j.status j.updatedAt then
    { j with status := JobStatus.queued, updatedAt := now }
  else j

/-- `recover_stale_jobs(session)` (src/humpback/workers/queue.py lines
18-53): reset running rows strictly older than the cutoff back to
queued, for both job kinds, and return the summed rowcount. -/
def recover_stale_jobs (pjobs : List ProcessingJob)
    (cjobs : List ClusteringJob) (cutoff now : Nat) :
    List ProcessingJob × List ClusteringJob × Nat :=
  (pjobs.map (recoverProcessing cutoff now),
   cjobs.map (recoverClustering cutoff now),
   pjobs.countP (fun j => staleP cutoff j.status j.updatedAt) +
     cjobs.countP (fun j => staleP cutoff j.status j.updatedAt))

theorem foldl_pickOlder_some (l : List ProcessingJob) (a : ProcessingJob) :
    ∃ b, l.foldl pickOlder (some a) = some b ∧ (b = a ∨ b ∈ l) ∧
      b.createdAt ≤ a.createdAt ∧ ∀ k ∈ l, b.createdAt ≤ k.createdAt := by
  induction l generalizing a with
  | nil => exact ⟨a, rfl, Or.inl rfl, Nat.le_refl _, by simp⟩
  | cons j t ih =>
    simp only [List.foldl_cons, pickOlder]
    by_cases hj : j.createdAt < a.createdAt
    · obtain ⟨b, hb, hmem, hle, hall⟩ := ih j
      refine ⟨b, by simpa [hj] using hb, ?_, Nat.le_of_lt (Nat.lt_of_le_of_lt hle hj), ?_⟩
      · rcases hmem with h | h
        · exact Or.inr (by simp [h])
        · exact Or.inr (by simp [h])
      · intro k hk
        rcases List.mem_cons.mp hk with rfl | hk
        · exact hle
        · exact hall k hk
    · obtain ⟨b, hb, hmem, hle, hall⟩ := ih a
      refine ⟨b, by simpa [hj] using hb, ?_, hle, ?_⟩
      · rcases hmem with h | h
        · exact Or.inl h
        · exact Or.inr (by simp [h])
      · intro k hk
        rcases List.mem_cons.mp hk with rfl | hk
        · exact Nat.le_trans hle (Nat.le_of_not_lt hj)
        · exact hall k hk

theorem oldestFirst_none {l : List ProcessingJob}
    (h : oldestFirst l = none) : l = [] := by
  cases l with
  | nil => rfl
  | cons j t =>
    exfalso
    obtain ⟨b, hb, -⟩ := foldl_pickOlder_some t j
    rw [oldestFirst, List.foldl_cons] at h
    simp only [pickOlder] at h
    rw [hb] at h
    exact Option.noConfusion h

theorem oldestFirst_some {l : List ProcessingJob} {b : ProcessingJob}
    (h : oldestFirst l = some b) :
    b ∈ l ∧ ∀ k ∈ l, b.createdAt ≤ k.createdAt := by
  cases l with
  | nil => exact Option.noConfusion h
  | cons j t =>
    obtain ⟨b', hb', hmem, hle, hall⟩ := foldl_pickOlder_some t j
    rw [oldestFirst, List.foldl_cons] at h
    simp only [pickOlder] at h
    rw [hb'] at h
    obtain rfl : b' = b := Option.some.inj h
    refine ⟨?_, ?_⟩
    · rcases hmem with h | h
      · exact h ▸ List.mem_cons_self _ _
      · exact List.mem_cons_of_mem _ h
    · intro k hk
      rcases List.mem_cons.mp hk with rfl | hk
      · exact hle
      · exact hall k hk

theorem eligible_not_running {jobs : List ProcessingJob}
    {j : ProcessingJob} (h : eligibleB jobs j = true) :
    j.status = JobStatus.queued ∧
      j.encodingSignature ∉ runningSignatures jobs := by
  simp only [eligibleB, Bool.and_eq_true, beq_iff_eq, Bool.not_eq_true'] at h
  refine ⟨h.1, fun hmem => ?_⟩
  have hc : (runningSignatures jobs).contains j.encodingSignature = true :=
    List.contains_iff_exists_mem_beq.mpr ⟨_, hmem, by simp⟩
  rw [h.2] at hc
  exact Bool.noConfusion hc

/-- C1: `claim_processing_job` returns the oldest (`created_at`
ascending) queued job whose encoding signature is not held by any
running job, transitions exactly that row to `running` stamping
`updated_at`, and returns it; a queued job blocked by a running job with
the same signature is skipped in favor of a younger eligible one (the
returned job is minimal among *eligible* jobs only), and the returned
job never shares a signature with a running job.  If no eligible job
exists it returns `none` and leaves the table unchanged. -/
theorem claim_processing_job_spec (jobs : List ProcessingJob) (now : Nat)
    (_hids : (jobs.map (fun j => j.id)).Nodup) :
    (∀ r, claim_processing_job jobs now = (none, r) →
      r = jobs ∧ ∀ j ∈ jobs, eligibleB jobs j = false) ∧
    (∀ j' r, claim_processing_job jobs now = (some j', r) →
      ∃ j ∈ jobs, eligibleB jobs j = true ∧
        j.status = JobStatus.queued ∧
        j.encodingSignature ∉ runningSignatures jobs ∧
        (∀ k ∈ jobs, eligibleB jobs k = true → j.createdAt ≤ k.createdAt) ∧
        j' = { j with status := JobStatus.running, updatedAt := now } ∧
        r = jobs.map (fun k => if k.id == j.id then j' else k) ∧
        j' ∈ r ∧
        ∀ k ∈ jobs, k.id ≠ j.id → k ∈ r) := by
  constructor
  · intro r h
    rw [claim_processing_job] at h
    cases hold : oldestFirst (jobs.filter (eligibleB jobs)) with
    | some j => rw [hold] at h; exact Prod.noConfusion h (fun h1 _ => Option.noConfusion h1)
    | none =>
      rw [hold] at h
      obtain ⟨-, rfl⟩ := Prod.mk.injEq _ _ _ _ ▸ h
      have hnil := oldestFirst_none hold
      refine ⟨rfl, fun j hj => ?_⟩
      by_contra hne
      have : j ∈ jobs.filter (eligibleB jobs) :=
        List.mem_filter.mpr ⟨hj, Bool.of_not_eq_false hne⟩
      rw [hnil] at this
      exact List.not_mem_nil _ this
  · intro j' r h
    rw [claim_processing_job] at h
    cases hold : oldestFirst (jobs.filter (eligibleB jobs)) with
    | none => rw [hold] at h; exact Prod.noConfusion h (fun h1 _ => Option.noConfusion h1)
    | some j =>
      rw [hold] at h
      obtain ⟨hj', hr⟩ := Prod.mk.injEq _ _ _ _ ▸ h
      obtain rfl : ({ j with status := JobStatus.running, updatedAt := now }
          : ProcessingJob) = j' := Option.some.inj hj'
      obtain ⟨hmemf, hminf⟩ := oldestFirst_some hold
      obtain ⟨hmem, helig⟩ := List.mem_filter.mp hmemf
      obtain ⟨hq, hns⟩ := eligible_not_running helig
      refine ⟨j, hmem, helig, hq, hns, ?_, rfl, hr.symm, ?_, ?_⟩
      · intro k hk hkelig
        exact hminf k (List.mem_filter.mpr ⟨hk, hkelig⟩)
      · rw [← hr]
        refine List.mem_map.mpr ⟨j, hmem, ?_⟩
        simp
      · intro k hk hkid
        rw [← hr]
        refine List.mem_map.mpr ⟨k, hk, ?_⟩
        simp [hkid]

/-- Concrete run of C1: a queue holding a running job with signature
"A", an older queued job blocked on "A", and a younger queued job with
signature "B"; the claim picks the younger "B" job. -/
def jobsC1 : List ProcessingJob :=
  [⟨0, "A", 0, 0, JobStatus.running, none⟩,
   ⟨1, "A", 1, 0, JobStatus.queued, none⟩,
   ⟨2, "B", 2, 0, JobStatus.queued, none⟩]

theorem claim_processing_job_spec_witness :
    (jobsC1.map (fun j => j.id)).Nodup ∧
    ((∀ r, claim_processing_job jobsC1 9 = (none, r) →
      r = jobsC1 ∧ ∀ j ∈ jobsC1, eligibleB jobsC1 j = false) ∧
    (∀ j' r, claim_processing_job jobsC1 9 = (some j', r) →
      ∃ j ∈ jobsC1, eligibleB jobsC1 j = true ∧
        j.status = JobStatus.queued ∧
        j.encodingSignature ∉ runningSignatures jobsC1 ∧
        (∀ k ∈ jobsC1, eligibleB jobsC1 k = true →
          j.createdAt ≤ k.createdAt) ∧
        j' = { j with status := JobStatus.running, updatedAt := 9 } ∧
        r = jobsC1.map (fun k => if k.id == j.id then j' else k) ∧
        j' ∈ r ∧
        ∀ k ∈ jobsC1, k.id ≠ j.id → k ∈ r)) :=
  ⟨by decide, claim_processing_job_spec jobsC1 9 (by decide)⟩

/-- A concrete already-canceled job used to exercise
`complete_processing_job` against a terminal row. -/
def canceledJobC2 : ProcessingJob :=
  ⟨7, "S", 0, 3, JobStatus.canceled, none⟩

/-- C2 counterexample: `complete_processing_job` carries no status
guard, so calling it on an already-canceled job overwrites the terminal
status with `complete` instead of leaving the row unchanged. -/
theorem complete_after_cancel_overwrites :
    canceledJobC2.status = JobStatus.canceled ∧
    complete_processing_job [canceledJobC2] 7 5 =
      [{ canceledJobC2 with status := JobStatus.complete,
                            updatedAt := 5 }] ∧
    complete_processing_job [canceledJobC2] 7 5 ≠ [canceledJobC2] := by
  decide

/-- C2 amended: `cancel_processing_job` is a no-op on an
already-terminal row, and calling `complete_processing_job` twice
leaves the final status `complete` (idempotent); but `complete` and
`fail` update the row unconditionally by id, so a worker's completion
or failure call after a cancel overwrites the canceled status rather
than leaving the terminal row unchanged. -/
theorem terminal_transitions_spec (jobs : List ProcessingJob)
    (jobId now now' : Nat) (error : String) (j : ProcessingJob)
    (hfind : jobs.find? (fun k => k.id == jobId) = some j)
    (hterm : j.status = JobStatus.complete ∨ j.status = JobStatus.failed ∨
      j.status = JobStatus.canceled) :
    cancel_processing_job jobs jobId = (some j, jobs) ∧
    complete_processing_job (complete_processing_job jobs jobId now)
      jobId now' = complete_processing_job jobs jobId now' ∧
    (∀ k ∈ jobs, k.id = jobId →
      { k with status := JobStatus.complete, updatedAt := now } ∈
        complete_processing_job jobs jobId now) ∧
    (∀ k ∈ jobs, k.id = jobId →
      { k with status := JobStatus.failed, errorMessage := some error,
               updatedAt := now } ∈
        fail_processing_job jobs jobId error now) := by
  refine ⟨?_, ?_, ?_, ?_⟩
  · have hcond : (j.status == JobStatus.queued ||
        j.status == JobStatus.running) = false := by
      rcases hterm with h | h | h <;> rw [h] <;> rfl
    rw [cancel_processing_job, hfind]
    simp only [hcond, Bool.false_eq_true, if_false]
  · rw [complete_processing_job, complete_processing_job,
      complete_processing_job, List.map_map]
    refine List.map_congr_left (fun k _ => ?_)
    by_cases hk : k.id == jobId <;> simp [Function.comp, hk]
  · intro k hk hkid
    exact List.mem_map.mpr ⟨k, hk, by simp [complete_processing_job, hkid]⟩
  · intro k hk hkid
    exact List.mem_map.mpr ⟨k, hk, by simp [fail_processing_job, hkid]⟩

theorem terminal_transitions_spec_witness :
    ([canceledJobC2].find? (fun k => k.id == 7) = some canceledJobC2) ∧
    (canceledJobC2.status = JobStatus.complete ∨
      canceledJobC2.status = JobStatus.failed ∨
      canceledJobC2.status = JobStatus.canceled) ∧
    (cancel_processing_job [canceledJobC2] 7 =
        (some canceledJobC2, [canceledJobC2]) ∧
      complete_processing_job
          (complete_processing_job [canceledJobC2] 7 4) 7 5 =
        complete_processing_job [canceledJobC2] 7 5 ∧
      (∀ k ∈ [canceledJobC2], k.id = 7 →
        { k with status := JobStatus.complete, updatedAt := 4 } ∈
          complete_processing_job [canceledJobC2] 7 4) ∧
      (∀ k ∈ [canceledJobC2], k.id = 7 →
        { k with status := JobStatus.failed, errorMessage := some "boom",
                 updatedAt := 4 } ∈
          fail_processing_job [canceledJobC2] 7 "boom" 4)) :=
  ⟨by decide, by decide,
    terminal_transitions_spec [canceledJobC2] 7 4 5 "boom" canceledJobC2
      (by decide) (by decide)⟩

/-- C5: `recover_stale_jobs` maps both tables row-by-row, resetting to
`queued` (stamping `updated_at := now`) exactly the rows that are
`running` with update timestamp strictly older than the cutoff, leaving
every other row untouched, and returns the total number of rows reset
across both job kinds. -/
theorem recover_stale_jobs_spec (pjobs : List ProcessingJob)
    (cjobs : List ClusteringJob) (cutoff now : Nat)
    (_h : 0 ≤ cutoff) :
    ((recover_stale_jobs pjobs cjobs cutoff now).1 =
        pjobs.map (recoverProcessing cutoff now) ∧
      (recover_stale_jobs pjobs cjobs cutoff now).2.1 =
        cjobs.map (recoverClustering cutoff now) ∧
      (recover_stale_jobs pjobs cjobs cutoff now).2.2 =
        (pjobs.filter (fun j => staleP cutoff j.status j.updatedAt)).length
          +
        (cjobs.filter
          (fun j => staleP cutoff j.status j.updatedAt)).length) ∧
    (∀ j : ProcessingJob, staleP cutoff j.status j.updatedAt = true →
      recoverProcessing cutoff now j =
        { j with status := JobStatus.queued, updatedAt := now }) ∧
    (∀ j : ProcessingJob, staleP cutoff j.status j.updatedAt = false →
      recoverProcessing cutoff now j = j) ∧
    (∀ j : ClusteringJob, staleP cutoff j.status j.updatedAt = true →
      recoverClustering cutoff now j =
        { j with status := JobStatus.queued, updatedAt := now }) ∧
    (∀ j : ClusteringJob, staleP cutoff j.status j.updatedAt = false →
      recoverClustering cutoff now j = j) ∧
    (∀ s u, staleP cutoff s u = true ↔
      (s = JobStatus.running ∧ u < cutoff)) := by
  refine ⟨⟨rfl, rfl, ?_⟩, ?_, ?_, ?_, ?_, ?_⟩
  · simp [recover_stale_jobs, List.countP_eq_length_filter]
  · intro j h; simp [recoverProcessing, h]
  · intro j h; simp [recoverProcessing, h]
  · intro j h; simp [recoverClustering, h]
  · intro j h; simp [recoverClustering, h]
  · intro s u
    simp [staleP, Bool.and_eq_true, beq_iff_eq, decide_eq_true_eq]

/-- Concrete tables for the C5 witness: one stale running job, one
recently-updated running job, one queued job, one stale clustering
job. -/
def pjobsC5 : List ProcessingJob :=
  [⟨0, "A", 0, 1, JobStatus.running, none⟩,
   ⟨1, "B", 0, 90, JobStatus.running, none⟩,
   ⟨2, "C", 0, 1, JobStatus.queued, none⟩]

def cjobsC5 : List ClusteringJob :=
  [⟨0, [1], 0, 2, JobStatus.running, none⟩]

theorem recover_stale_jobs_spec_witness :
    0 ≤ 50 ∧
    (((recover_stale_jobs pjobsC5 cjobsC5 50 100).1 =
        pjobsC5.map (recoverProcessing 50 100) ∧
      (recover_stale_jobs pjobsC5 cjobsC5 50 100).2.1 =
        cjobsC5.map (recoverClustering 50 100) ∧
      (recover_stale_jobs pjobsC5 cjobsC5 50 100).2.2 =
        (pjobsC5.filter (fun j => staleP 50 j.status j.updatedAt)).length
          +
        (cjobsC5.filter
          (fun j => staleP 50 j.status j.updatedAt)).length) ∧
    (∀ j : ProcessingJob, staleP 50 j.status j.updatedAt = true →
      recoverProcessing 50 100 j =
        { j with status := JobStatus.queued, updatedAt := 100 }) ∧
    (∀ j : ProcessingJob, staleP 50 j.status j.updatedAt = false →
      recoverProcessing 50 100 j = j) ∧
    (∀ j : ClusteringJob, staleP 50 j.status j.updatedAt = true →
      recoverClustering 50 100 j =
        { j with status := JobStatus.queued, updatedAt := 100 }) ∧
    (∀ j : ClusteringJob, staleP 50 j.status j.updatedAt = false →
      recoverClustering 50 100 j = j) ∧
    (∀ s u, staleP 50 s u = true ↔
      (s = JobStatus.running ∧ u < 50))) :=
  ⟨by decide, recover_stale_jobs_spec pjobsC5 cjobsC5 50 100 (by decide)⟩

/-! ### Windowing (src/humpback/processing/windowing.py)

`window_seconds` is a Python float; it is embedded as an exact rational.
`int(sample_rate * window_seconds)` truncates toward zero, which on the
branch the functions actually use (`window_samples > 0`) coincides with
`Int.floor`; for non-positive products both the truncation and the
floor land in the error branch. -/

/-- `window_samples = int(sample_rate * window_seconds)`
(src/humpback/processing/windowing.py lines 10 and 26). -/
def windowSamplesOf (sampleRate : Nat) (windowSeconds : ℚ) : Int :=
  Int.floor ((sampleRate : ℚ) * windowSeconds)

/-- The while loop of `slice_windows`
(src/humpback/processing/windowing.py lines 15-21): take the next
`w` samples, zero-padding the final short chunk. -/
def sliceGo (w : Nat) (hw : 0 < w) : List Int → List (List Int)
  | [] => []
  | a :: rest =>
      ((a :: rest).take w ++
        List.replicate (w - ((a :: rest).take w).length) 0) ::
        sliceGo w hw ((a :: rest).drop w)
termination_by audio => audio.length
decreasing_by
  simp only [List.length_drop, List.length_cons]
  omega

/-- `slice_windows(audio, sample_rate, window_seconds)`
(src/humpback/processing/windowing.py lines 6-21); `none` models the
`ValueError` raised for a non-positive window. -/
def slice_windows (audio : List Int) (sampleRate : Nat)
    (windowSeconds : ℚ) : Option (List (List Int)) :=
  let w := windowSamplesOf sampleRate windowSeconds
  if h : w ≤ 0 then none
  else some (sliceGo w.toNat (by omega) audio)

/-- `count_windows(n_samples, sample_rate, window_seconds)`
(src/humpback/processing/windowing.py lines 24-29). -/
def count_windows (nSamples : Nat) (sampleRate : Nat)
    (windowSeconds : ℚ) : Nat :=
  let w := windowSamplesOf sampleRate windowSeconds
  if w ≤ 0 then 0
  else max 1 ((nSamples + w.toNat - 1) / w.toNat)

theorem sliceGo_spec (w : Nat) (hw : 0 < w) (audio : List Int) :
    (sliceGo w hw audio).length = (audio.length + w - 1) / w ∧
    (∀ win ∈ sliceGo w hw audio, win.length = w) ∧
    (sliceGo w hw audio).flatten =
      audio ++
        List.replicate ((sliceGo w hw audio).length * w - audio.length)
          0 := by
  generalize hN : audio.length = N
  induction N using Nat.strong_induction_on generalizing audio with
  | _ N ih =>
    cases audio with
    | nil =>
      have h0 : 0 = N := by simpa using hN
      subst h0
      refine ⟨?_, by simp [sliceGo], by simp [sliceGo]⟩
      rw [sliceGo]
      simp only [List.length_nil, Nat.zero_add]
      exact (Nat.div_eq_of_lt (by omega)).symm
    | cons a rest =>
      have hlen : (a :: rest).length = N := hN
      have hNpos : 0 < N := by rw [← hlen]; simp
      have heq : sliceGo w hw (a :: rest) =
          ((a :: rest).take w ++
            List.replicate (w - ((a :: rest).take w).length) 0) ::
            sliceGo w hw ((a :: rest).drop w) := by
        rw [sliceGo]
      have hdroplen : ((a :: rest).drop w).length = N - w := by
        simp [List.length_drop, hlen]
      have hlt : N - w < N := Nat.sub_lt hNpos hw
      obtain ⟨ihlen, ihwin, ihjoin⟩ :=
        ih (N - w) hlt ((a :: rest).drop w) hdroplen
      have htake : ((a :: rest).take w).length = min w N := by
        simp [List.length_take, hlen]
      have hchunk : ((a :: rest).take w ++
          List.replicate (w - ((a :: rest).take w).length) 0).length
            = w := by
        simp only [List.length_append, List.length_replicate, htake]
        omega
      have hcount : (sliceGo w hw (a :: rest)).length =
          (sliceGo w hw ((a :: rest).drop w)).length + 1 := by
        rw [heq, List.length_cons]
      refine ⟨?_, ?_, ?_⟩
      · rw [hcount, ihlen]
        rcases Nat.lt_or_ge N w with hc | hc
        · have h1 : N - w = 0 := by omega
          rw [h1]
          have h2 : (0 + w - 1) / w = 0 := Nat.div_eq_of_lt (by omega)
          have h3 : (N + w - 1) / w = 1 := by
            have e : N + w - 1 = (N - 1) + w := by omega
            rw [e, Nat.add_div_right _ hw, Nat.div_eq_of_lt (by omega)]
          omega
        · have h1 : N - w + w - 1 = N - 1 := by omega
          have h2 : N + w - 1 = (N - 1) + w := by omega
          rw [h1, h2, Nat.add_div_right _ hw]
      · intro win hwin
        rw [heq] at hwin
        rcases List.mem_cons.mp hwin with rfl | hwin
        · exact hchunk
        · exact ihwin win hwin
      · rcases Nat.lt_or_ge N w with hc | hc
        · -- the whole signal fits in one (padded) window
          have hcN : (a :: rest).length < w := by rw [hlen]; exact hc
          have hdrop0 : (a :: rest).drop w = [] :=
            List.drop_eq_nil_of_le (Nat.le_of_lt hcN)
          have htakeall : (a :: rest).take w = a :: rest :=
            List.take_of_length_le (Nat.le_of_lt hcN)
          have hnil : sliceGo w hw ([] : List Int) = [] := by
            rw [sliceGo]
          have hS : sliceGo w hw (a :: rest) =
              [(a :: rest) ++ List.replicate (w - N) 0] := by
            rw [heq, hdrop0, hnil, htakeall, hlen]
          rw [hS]
          simp only [List.flatten, List.length_cons, List.length_nil,
            List.append_nil, List.flatten_nil]
          have hrep : w - N = 1 * w - N := by omega
          rw [hrep]
        · -- a full window splits off the front
          have htt : ((a :: rest).take w).length = w := by
            rw [htake]; omega
          have hrep0 : List.replicate
              (w - ((a :: rest).take w).length) (0 : Int) = [] := by
            rw [htt, Nat.sub_self, List.replicate_zero]
          rw [heq, List.flatten_cons, hrep0, List.append_nil, ihjoin,
            ← List.append_assoc, List.take_append_drop]
          congr 2
          simp only [List.length_cons, Nat.add_mul, Nat.one_mul]
          omega

/-- C4 counterexample: for empty audio `slice_windows` yields zero
windows (`some []`) while `count_windows` reports 1, so the claimed
"minimum of 1 window even for very short (including empty) audio" fails
for `slice_windows` on empty input. -/
theorem slice_windows_empty_counterexample :
    slice_windows ([] : List Int) 16000 5 = some [] ∧
    count_windows 0 16000 5 = 1 ∧
    ([] : List (List Int)).length ≠ count_windows 0 16000 5 := by
  have hws : windowSamplesOf 16000 5 = (80000 : Int) := by
    rw [windowSamplesOf]
    norm_num
  refine ⟨?_, ?_, ?_⟩
  · rw [slice_windows]
    simp only [hws]
    rw [dif_neg (by omega)]
    congr 1
    rw [sliceGo]
  · rw [count_windows]
    simp only [hws]
    rw [if_neg (by omega)]
    decide
  · rw [count_windows]
    simp only [hws]
    rw [if_neg (by omega)]
    decide

/-- C4 amended: for a configuration with positive
`window_samples = floor(rate * window_seconds) = w`, `slice_windows`
yields exactly `ceil(n_samples / w)` windows (0 for empty audio, not
1), every window has exactly `w` samples, the concatenation of the
windows is the audio followed by zero padding (so the final short
window is zero-padded, in order), and `count_windows` returns
`max 1 (ceil(n_samples / w))`; the two counts agree on every
*nonempty* audio signal. -/
theorem windowing_spec (audio : List Int) (sampleRate : Nat)
    (windowSeconds : ℚ) (w : Nat)
    (hww : windowSamplesOf sampleRate windowSeconds = (w : Int))
    (hw : 0 < w) :
    ∃ L, slice_windows audio sampleRate windowSeconds = some L ∧
      L.length = (audio.length + w - 1) / w ∧
      (∀ win ∈ L, win.length = w) ∧
      L.flatten = audio ++
        List.replicate (L.length * w - audio.length) 0 ∧
      count_windows audio.length sampleRate windowSeconds =
        max 1 ((audio.length + w - 1) / w) ∧
      (audio ≠ [] →
        L.length = count_windows audio.length sampleRate windowSeconds)
      := by
  have hne : ¬ (windowSamplesOf sampleRate windowSeconds ≤ 0) := by
    rw [hww]; omega
  have htn : (windowSamplesOf sampleRate windowSeconds).toNat = w := by
    rw [hww]; omega
  rw [slice_windows]
  rw [dif_neg hne]
  refine ⟨_, rfl, ?_⟩
  obtain ⟨hlen, hwin, hjoin⟩ :=
    sliceGo_spec (windowSamplesOf sampleRate windowSeconds).toNat
      (by omega) audio
  have hcw : count_windows audio.length sampleRate windowSeconds =
      max 1 ((audio.length + w - 1) / w) := by
    rw [count_windows]
    rw [if_neg hne, htn]
  rw [← htn]
  refine ⟨hlen, hwin, hjoin, by rw [htn]; exact hcw, ?_⟩
  intro hne2
  rw [hlen, htn, hcw]
  have h1 : 1 ≤ (audio.length + w - 1) / w := by
    have hna : 1 ≤ audio.length := by
      cases audio with
      | nil => exact absurd rfl hne2
      | cons a rest => simp
    have : w ≤ audio.length + w - 1 := by omega
    exact (Nat.one_le_div_iff hw).mpr this
  omega

theorem windowing_spec_witness :
    windowSamplesOf 2 1 = (2 : Int) ∧ 0 < 2 ∧
    (∃ L, slice_windows [1, 2, 3] 2 1 = some L ∧
      L.length = ([1, 2, 3].length + 2 - 1) / 2 ∧
      (∀ win ∈ L, win.length = 2) ∧
      L.flatten = [1, 2, 3] ++
        List.replicate (L.length * 2 - [1, 2, 3].length) 0 ∧
      count_windows [1, 2, 3].length 2 1 =
        max 1 (([1, 2, 3].length + 2 - 1) / 2) ∧
      ([1, 2, 3] ≠ ([] : List Int) →
        L.length = count_windows [1, 2, 3].length 2 1)) :=
  ⟨by rw [windowSamplesOf]; norm_num, by omega,
    windowing_spec [1, 2, 3] 2 1 2 (by rw [windowSamplesOf]; norm_num)
      (by omega)⟩

/-! ### Artifact writer (src/humpback/processing/embeddings.py)

`IncrementalParquetWriter` buffers vectors, flushes batches of rows
`(row_index, vector)` to a temp file, and on `close` atomically renames
the temp file onto the destination (src/humpback/storage.py
`atomic_rename`).  The embedding keeps the two files as
`Option (List (Nat × α))` — `none` means the path does not exist;
vectors are an arbitrary type `α`. -/

/-- Writer state plus the two file-system paths it touches
(src/humpback/processing/embeddings.py lines 14-28): `buffer` is
`_buffer`, `rowIndex` is `_row_index`, `tmpFile` is the temp file
(created by the first flush, like `_writer`), `destFile` the final
path. -/
structure IncrementalParquetWriter (α : Type) where
  buffer : List α
  rowIndex : Nat
  tmpFile : Option (List (Nat × α))
  destFile : Option (List (Nat × α))
deriving DecidableEq, Repr

namespace IncrementalParquetWriter

/-- A freshly constructed writer over a destination path that does not
exist yet. -/
def init {α : Type} : IncrementalParquetWriter α :=
  ⟨[], 0, none, none⟩

/-- `_flush` (src/humpback/processing/embeddings.py lines 35-48):
append the buffered rows, indexed from `_row_index`, to the temp file
(creating it on first use); no-op on an empty buffer. -/
def flush {α : Type} (s : IncrementalParquetWriter α) :
    IncrementalParquetWriter α :=
  if s.buffer.isEmpty then s
  else
    { s with
      tmpFile := some (s.tmpFile.getD [] ++
        (List.range' s.rowIndex s.buffer.length).zip s.buffer),
      rowIndex := s.rowIndex + s.buffer.length,
      buffer := [] }

/-- `add(vector)` (src/humpback/processing/embeddings.py lines 30-33):
buffer one row, flushing when the batch threshold is reached. -/
def add {α : Type} (batchSize : Nat) (s : IncrementalParquetWriter α)
    (v : α) : IncrementalParquetWriter α :=
  let s' := { s with buffer := s.buffer ++ [v] }
  if batchSize ≤ s'.buffer.length then s'.flush else s'

/-- `close()` (src/humpback/processing/embeddings.py lines 50-57):
flush the remainder and, if the temp file exists, atomically rename it
onto the destination. -/
def close {α : Type} (s : IncrementalParquetWriter α) :
    IncrementalParquetWriter α :=
  let s' := s.flush
  match s'.tmpFile with
  | none => s'
  | some rows => { s' with tmpFile := none, destFile := some rows }

/-- `total_rows` (src/humpback/processing/embeddings.py lines 59-61):
flushed rows plus unflushed buffered rows. -/
def total_rows {α : Type} (s : IncrementalParquetWriter α) : Nat :=
  s.rowIndex + s.buffer.length

/-- A sequence of `add` calls. -/
def addAll {α : Type} (batchSize : Nat)
    (s : IncrementalParquetWriter α) (vs : List α) :
    IncrementalParquetWriter α :=
  vs.foldl (add batchSize) s

/-- All rows accepted so far, flushed or buffered, in index order. -/
def pendingRows {α : Type} (s : IncrementalParquetWriter α) :
    List (Nat × α) :=
  s.tmpFile.getD [] ++ (List.range' s.rowIndex s.buffer.length).zip s.buffer

theorem flush_spec {α : Type} (s : IncrementalParquetWriter α) :
    s.flush.pendingRows = s.pendingRows ∧
    s.flush.total_rows = s.total_rows ∧
    s.flush.destFile = s.destFile ∧
    s.flush.buffer = [] ∧
    (s.pendingRows ≠ [] → ∃ r, s.flush.tmpFile = some r) := by
  rw [flush]
  by_cases hb : s.buffer.isEmpty
  · have hb' : s.buffer = [] := List.isEmpty_iff.mp hb
    rw [if_pos hb]
    refine ⟨rfl, rfl, rfl, hb', fun hne => ?_⟩
    cases ht : s.tmpFile with
    | none =>
      exfalso
      apply hne
      rw [pendingRows, ht, hb']
      simp
    | some r => exact ⟨r, rfl⟩
  · have hb' : s.buffer ≠ [] := fun h => hb (List.isEmpty_iff.mpr h)
    rw [if_neg hb]
    refine ⟨?_, ?_, rfl, rfl, fun _ => ⟨_, rfl⟩⟩
    · rw [pendingRows, pendingRows]
      simp
    · rw [total_rows, total_rows]
      simp

theorem add_spec {α : Type} (batchSize : Nat)
    (s : IncrementalParquetWriter α) (v : α) :
    (s.add batchSize v).pendingRows =
      s.pendingRows ++ [(s.total_rows, v)] ∧
    (s.add batchSize v).total_rows = s.total_rows + 1 ∧
    (s.add batchSize v).destFile = s.destFile := by
  have hs' : ({ s with buffer := s.buffer ++ [v] } :
      IncrementalParquetWriter α).pendingRows =
        s.pendingRows ++ [(s.total_rows, v)] ∧
      ({ s with buffer := s.buffer ++ [v] } :
        IncrementalParquetWriter α).total_rows = s.total_rows + 1 := by
    constructor
    · rw [pendingRows, pendingRows, total_rows]
      have hr : List.range' s.rowIndex (s.buffer ++ [v]).length =
          List.range' s.rowIndex s.buffer.length ++
            [s.rowIndex + s.buffer.length] := by
        rw [List.length_append, List.length_singleton,
          List.range'_concat, Nat.one_mul]
      have hz : (List.range' s.rowIndex (s.buffer ++ [v]).length).zip
          (s.buffer ++ [v]) =
          (List.range' s.rowIndex s.buffer.length).zip s.buffer ++
            [(s.rowIndex + s.buffer.length, v)] := by
        rw [hr, List.zip_append (by simp)]
        rfl
      rw [hz, List.append_assoc]
    · simp only [total_rows, List.length_append, List.length_singleton]
      omega
  rw [add]
  by_cases hcond : batchSize ≤ (s.buffer ++ [v]).length
  · simp only [List.length_append, List.length_singleton] at hcond ⊢
    rw [if_pos hcond]
    obtain ⟨hf1, hf2, hf3, -, -⟩ :=
      flush_spec ({ s with buffer := s.buffer ++ [v] } :
        IncrementalParquetWriter α)
    rw [hf1, hf2, hf3]
    exact ⟨hs'.1, hs'.2, rfl⟩
  · simp only [List.length_append, List.length_singleton] at hcond ⊢
    rw [if_neg hcond]
    exact ⟨hs'.1, hs'.2, rfl⟩

theorem addAll_go {α : Type} (batchSize : Nat) (vs : List α) :
    ∀ s : IncrementalParquetWriter α,
    (s.addAll batchSize vs).pendingRows =
      s.pendingRows ++ (List.range' s.total_rows vs.length).zip vs ∧
    (s.addAll batchSize vs).total_rows = s.total_rows + vs.length ∧
    (s.addAll batchSize vs).destFile = s.destFile := by
  induction vs with
  | nil => intro s; simp [addAll]
  | cons v rest ih =>
    intro s
    have hfold : s.addAll batchSize (v :: rest) =
        (s.add batchSize v).addAll batchSize rest := rfl
    obtain ⟨ha1, ha2, ha3⟩ := add_spec batchSize s v
    obtain ⟨ih1, ih2, ih3⟩ := ih (s.add batchSize v)
    rw [hfold, ih1, ih2, ih3, ha1, ha2, ha3]
    refine ⟨?_, by rw [List.length_cons]; omega, rfl⟩
    have hr : List.range' s.total_rows (v :: rest).length =
        s.total_rows :: List.range' (s.total_rows + 1) rest.length := by
      rw [List.length_cons, List.range'_succ]
    rw [hr, List.zip_cons_cons, List.append_assoc, List.singleton_append]

theorem close_dest {α : Type} (s : IncrementalParquetWriter α)
    (hne : s.pendingRows ≠ []) :
    s.close.destFile = some s.pendingRows := by
  obtain ⟨hf1, -, -, hbuf, hexist⟩ := flush_spec s
  obtain ⟨r, hr⟩ := hexist hne
  rw [close]
  simp only [hr]
  have : s.flush.pendingRows = r := by
    rw [pendingRows, hr, hbuf]
    simp
  rw [← hf1, this]

/-- C3 counterexample: a writer that accepted zero `add` calls still
returns from `close()`, but the destination path does not exist
afterwards, contradicting the unconditional "if `close()` returns, the
destination path exists". -/
theorem writer_close_empty_counterexample :
    (IncrementalParquetWriter.addAll 50
        (IncrementalParquetWriter.init) ([] : List Int)).close.destFile
      = none ∧
    (IncrementalParquetWriter.addAll 50
        (IncrementalParquetWriter.init) ([] : List Int)).total_rows
      = 0 := by
  decide

/-- C3 amended: for any batch size and any sequence of accepted `add`
calls, the destination path does not exist while `close()` has not been
called; `total_rows` equals the number of accepted `add` calls
(including unflushed buffered rows); and when `close()` returns, the
destination holds exactly the `total_rows` accepted vectors with row
indices in order `0..n-1` — provided at least one row was added, while
for an empty writer the destination remains absent. -/
theorem incremental_writer_spec {α : Type} (batchSize : Nat)
    (vs : List α) :
    (IncrementalParquetWriter.addAll batchSize
        IncrementalParquetWriter.init vs).destFile = none ∧
    (IncrementalParquetWriter.addAll batchSize
        IncrementalParquetWriter.init vs).total_rows = vs.length ∧
    (vs = [] →
      (IncrementalParquetWriter.addAll batchSize
          IncrementalParquetWriter.init vs).close.destFile = none) ∧
    (vs ≠ [] →
      (IncrementalParquetWriter.addAll batchSize
          IncrementalParquetWriter.init vs).close.destFile =
        some ((List.range' 0 vs.length).zip vs)) := by
  obtain ⟨h1, h2, h3⟩ := addAll_go batchSize vs
    (IncrementalParquetWriter.init (α := α))
  have hpend : (IncrementalParquetWriter.addAll batchSize
      IncrementalParquetWriter.init vs).pendingRows =
        (List.range' 0 vs.length).zip vs := by
    rw [h1]
    rfl
  refine ⟨h3, by rw [h2]; show 0 + vs.length = vs.length; omega, ?_, ?_⟩
  · intro hnil
    subst hnil
    rfl
  · intro hne
    rw [close_dest _ (by
      rw [hpend]
      cases vs with
      | nil => exact absurd rfl hne
      | cons a rest => simp [List.range'_succ]), hpend]

/-- Three vectors (as integers) for the C3 witness; batch size 2 makes
one mid-sequence flush happen. -/
def vsC3 : List Int := [10, 20, 30]

theorem incremental_writer_spec_witness :
    (IncrementalParquetWriter.addAll 2
        IncrementalParquetWriter.init vsC3).destFile = none ∧
    (IncrementalParquetWriter.addAll 2
        IncrementalParquetWriter.init vsC3).total_rows = vsC3.length ∧
    (vsC3 = [] →
      (IncrementalParquetWriter.addAll 2
          IncrementalParquetWriter.init vsC3).close.destFile = none) ∧
    (vsC3 ≠ [] →
      (IncrementalParquetWriter.addAll 2
          IncrementalParquetWriter.init vsC3).close.destFile =
        some ((List.range' 0 vsC3.length).zip vsC3)) :=
  incremental_writer_spec 2 vsC3

end IncrementalParquetWriter

/-! ### Clustering worker (src/humpback/workers/clustering_worker.py and
src/humpback/clustering/pipeline.py)

The statistical reduce-and-cluster routine is opaque to the core
(spec section 4.5), but the call site at clustering_worker.py line 62
unpacks its result as a pair — `labels, reduced =
await asyncio.to_thread(run_clustering_pipeline, ...)` — while
`run_clustering_pipeline` (pipeline.py lines 22-113) returns the plain
`@dataclass ClusteringResult`, which is not iterable.  The unpack
therefore raises `TypeError: cannot unpack non-iterable
ClusteringResult object` on every job that reaches it, the except
block (lines 139-148) rolls back and fails the job with `str(e)`, and
the persist section (lines 66-137) is dead code.  The embedding below
models this faithfully: only the failure paths of `run_clustering_job`
are reachable. -/

/-- An `embedding_sets` row together with the `row_index` column of its
parquet dataset (what `read_embeddings` returns, vectors elided since
only row identities matter to persistence). -/
structure EmbeddingSet where
  id : Nat
  audioFileId : Nat
  encodingSignature : String
  rows : List Nat
deriving DecidableEq, Repr

/-- A `clusters` row (src/humpback/models/clustering.py `Cluster`). -/
structure Cluster where
  clusteringJobId : Nat
  clusterLabel : Int
  size : Nat
deriving DecidableEq, Repr

/-- A `cluster_assignments` row; the `cluster_id` foreign key is
embedded as the owning job id plus the cluster label. -/
structure ClusterAssignment where
  clusteringJobId : Nat
  clusterLabel : Int
  embeddingSetId : Nat
  embeddingRowIndex : Nat
deriving DecidableEq, Repr

/-- One step of `collections.Counter`: count one more occurrence of
label `l`, keeping first-occurrence ordering. -/
def bumpLabel : List (Int × Nat) → Int → List (Int × Nat)
  | [], l => [(l, 1)]
  | (k, n) :: rest, l =>
      if k = l then (k, n + 1) :: rest else (k, n) :: bumpLabel rest l

/-- `compute_cluster_sizes(labels)` = `dict(Counter(labels.tolist()))`
(src/humpback/clustering/pipeline.py lines 116-118), as an association
list from distinct label to its count. -/
def compute_cluster_sizes (labels : List Int) : List (Int × Nat) :=
  labels.foldl bumpLabel []

/-- The load loop of `run_clustering_job`
(src/humpback/workers/clustering_worker.py lines 40-54): look up each
referenced embedding set, failing on a missing id, and concatenate the
per-set `(embedding_set_id, row_index)` pairs in order. -/
def gatherRows (sets : List EmbeddingSet) :
    List Nat → Except String (List (Nat × Nat))
  | [] => Except.ok []
  | esId :: rest =>
      match sets.find? (fun es => es.id == esId) with
      | none =>
          Except.error ("Embedding set " ++ toString esId ++ " not found")
      | some es =>
          match gatherRows sets rest with
          | Except.error e => Except.error e
          | Except.ok tail =>
              Except.ok (es.rows.map (fun idx => (esId, idx)) ++ tail)

/-- `complete_clustering_job(session, job_id)`
(src/humpback/workers/queue.py lines 135-141). -/
def complete_clustering_job (jobs : List ClusteringJob) (jobId : Nat)
    (now : Nat) : List ClusteringJob :=
  jobs.map (fun j =>
    if j.id == jobId then
      { j with status := JobStatus.complete, updatedAt := now }
    else j)

/-- `fail_clustering_job(session, job_id, error)`
(src/humpback/workers/queue.py lines 144-156). -/
def fail_clustering_job (jobs : List ClusteringJob) (jobId : Nat)
    (error : String) (now : Nat) : List ClusteringJob :=
  jobs.map (fun j =>
    if j.id == jobId then
      { j with status := JobStatus.failed, errorMessage := some error,
               updatedAt := now }
    else j)

/-- The tables `run_clustering_job` touches. -/
structure ClusteringDB where
  cjobs : List ClusteringJob
  embeddingSets : List EmbeddingSet
  clusters : List Cluster
  assignments : List ClusterAssignment
deriving DecidableEq, Repr

/-- `run_clustering_job(session, job, settings)`
(src/humpback/workers/clustering_worker.py lines 25-148): load all
referenced embedding sets (a missing id raises, failing the job with
that message); raise `ValueError("No embeddings found")` when no rows
were loaded (lines 56-57, also caught and recorded); otherwise line 62
unpacks `labels, reduced = run_clustering_pipeline(...)`, which raises
`TypeError` because `ClusteringResult` is a non-iterable dataclass, so
the except block fails the job with that message too.  Every raise is
caught by lines 139-148, which roll back uncommitted writes — the
cluster and assignment tables are never modified — and record the
message on the job row. -/
def run_clustering_job (db : ClusteringDB) (job : ClusteringJob)
    (now : Nat) : ClusteringDB :=
  match gatherRows db.embeddingSets job.embeddingSetIds with
  | Except.error e =>
      { db with cjobs := fail_clustering_job db.cjobs job.id e now }
  | Except.ok rows =>
      if rows.isEmpty then
        { db with cjobs :=
            fail_clustering_job db.cjobs job.id "No embeddings found" now }
      else
        let msg := "cannot unpack non-iterable ClusteringResult object"
        { db with cjobs :=
            fail_clustering_job db.cjobs job.id msg now }

theorem bumpLabel_sum (acc : List (Int × Nat)) (l : Int) :
    ((bumpLabel acc l).map (fun p => p.2)).sum =
      (acc.map (fun p => p.2)).sum + 1 := by
  induction acc with
  | nil => rfl
  | cons p rest ih =>
    obtain ⟨k, n⟩ := p
    by_cases hk : k = l
    · simp [bumpLabel, hk]
      omega
    · simp [bumpLabel, hk, ih]
      omega

theorem compute_cluster_sizes_sum_go (labels : List Int) :
    ∀ acc, ((labels.foldl bumpLabel acc).map (fun p => p.2)).sum =
      (acc.map (fun p => p.2)).sum + labels.length := by
  induction labels with
  | nil => intro acc; simp
  | cons l rest ih =>
    intro acc
    rw [List.foldl_cons, ih (bumpLabel acc l), bumpLabel_sum,
      List.length_cons]
    omega

/-- The values of `compute_cluster_sizes` sum to the number of
labels. -/
theorem compute_cluster_sizes_sum (labels : List Int) :
    ((compute_cluster_sizes labels).map (fun p => p.2)).sum =
      labels.length := by
  rw [compute_cluster_sizes, compute_cluster_sizes_sum_go]
  simp

/-- C9: a clustering job whose reference list is empty, or whose
referenced sets contain zero rows in total, ends `failed` with the
captured error message "No embeddings found", and no Cluster or
ClusterAssignment rows are created; the failure only marks this single
job and the queue never re-runs a `failed` job automatically. -/
theorem clustering_empty_input_fails (db : ClusteringDB)
    (job : ClusteringJob) (now : Nat)
    (h : job.embeddingSetIds = [] ∨
      gatherRows db.embeddingSets job.embeddingSetIds = Except.ok []) :
    run_clustering_job db job now =
      { db with cjobs :=
          fail_clustering_job db.cjobs job.id "No embeddings found" now }
      ∧
    (run_clustering_job db job now).clusters = db.clusters ∧
    (run_clustering_job db job now).assignments =
      db.assignments ∧
    (∀ j ∈ db.cjobs, j.id = job.id →
      { j with status := JobStatus.failed,
               errorMessage := some "No embeddings found",
               updatedAt := now }
        ∈ (run_clustering_job db job now).cjobs) := by
  have hok : gatherRows db.embeddingSets job.embeddingSetIds =
      Except.ok [] := by
    rcases h with h | h
    · rw [h]; rfl
    · exact h
  have hmain : run_clustering_job db job now =
      { db with cjobs :=
          fail_clustering_job db.cjobs job.id "No embeddings found" now }
      := by
    rw [run_clustering_job, hok]
    rfl
  refine ⟨hmain, by rw [hmain], by rw [hmain], ?_⟩
  intro j hj hjid
  rw [hmain]
  refine List.mem_map.mpr ⟨j, hj, ?_⟩
  simp [hjid]

/-- One running clustering job with an empty embedding-set reference
list, over an empty embedding-set table. -/
def dbC9 : ClusteringDB :=
  ⟨[⟨5, [], 0, 0, JobStatus.running, none⟩], [], [], []⟩

def jobC9 : ClusteringJob := ⟨5, [], 0, 0, JobStatus.running, none⟩

theorem clustering_empty_input_fails_witness :
    (jobC9.embeddingSetIds = [] ∨
      gatherRows dbC9.embeddingSets jobC9.embeddingSetIds =
        Except.ok []) ∧
    (run_clustering_job dbC9 jobC9 9 =
      { dbC9 with cjobs :=
          fail_clustering_job dbC9.cjobs jobC9.id "No embeddings found" 9 }
      ∧
    (run_clustering_job dbC9 jobC9 9).clusters = dbC9.clusters ∧
    (run_clustering_job dbC9 jobC9 9).assignments =
      dbC9.assignments ∧
    (∀ j ∈ dbC9.cjobs, j.id = jobC9.id →
      { j with status := JobStatus.failed,
               errorMessage := some "No embeddings found",
               updatedAt := 9 }
        ∈ (run_clustering_job dbC9 jobC9 9).cjobs)) :=
  ⟨Or.inl rfl, clustering_empty_input_fails dbC9 jobC9 9 (Or.inl rfl)⟩

/-- A clustering job with nonempty input: job 5 references embedding
set 1, which holds two rows — the scenario of the repository's e2e
smoke test (tests/e2e/test_smoke.py steps 7-10). -/
def dbC8 : ClusteringDB :=
  ⟨[⟨5, [1], 0, 0, JobStatus.running, none⟩],
   [⟨1, 2, "sig", [0, 1]⟩], [], []⟩

def jobC8 : ClusteringJob := ⟨5, [1], 0, 0, JobStatus.running, none⟩

/-- C8 (code bug): the claim's invariant over completed clustering jobs
never gets a completed job to hold of — `run_clustering_job` fails on
every input, because line 62 of clustering_worker.py unpacks
`labels, reduced =` from the non-iterable `ClusteringResult` dataclass
and the resulting `TypeError` is caught and recorded as the job error.
At the concrete failing input (job 5 over embedding set 1 with rows
`[0, 1]`, the e2e smoke-test scenario, which expects the job to
complete with cluster sizes summing to the row count) the job ends
`failed` with the unpack message and no Cluster or ClusterAssignment
rows exist; the summarize step the claim describes is itself correct:
the values of `compute_cluster_sizes` always sum to the number of
labels. -/
theorem clustering_unpack_type_error :
    (∀ (db : ClusteringDB) (job : ClusteringJob) (now : Nat),
      ∃ msg : String,
        run_clustering_job db job now =
          { db with cjobs :=
              fail_clustering_job db.cjobs job.id msg now }) ∧
    (run_clustering_job dbC8 jobC8 9).cjobs.map (fun j => j.status) =
      [JobStatus.failed] ∧
    (run_clustering_job dbC8 jobC8 9).cjobs.map
      (fun j => j.errorMessage) =
      [some "cannot unpack non-iterable ClusteringResult object"] ∧
    (run_clustering_job dbC8 jobC8 9).clusters = dbC8.clusters ∧
    (run_clustering_job dbC8 jobC8 9).assignments = dbC8.assignments ∧
    (∀ labels : List Int,
      ((compute_cluster_sizes labels).map (fun p => p.2)).sum =
        labels.length) := by
  refine ⟨?_, by decide, by decide, by decide, by decide,
    compute_cluster_sizes_sum⟩
  intro db job now
  cases hg : gatherRows db.embeddingSets job.embeddingSetIds with
  | error e =>
    exact ⟨e, by rw [run_clustering_job, hg]⟩
  | ok rows =>
    by_cases hr : rows.isEmpty = true
    · refine ⟨"No embeddings found", ?_⟩
      rw [run_clustering_job, hg]
      simp only [hr, if_true]
    · rw [Bool.not_eq_true] at hr
      refine ⟨"cannot unpack non-iterable ClusteringResult object", ?_⟩
      rw [run_clustering_job, hg]
      simp only [hr, Bool.false_eq_true, if_false]

/-! ### Encoding signature (src/humpback/processing/signature.py)

`compute_encoding_signature` builds a payload dict, serializes it with
`json.dumps(payload, sort_keys=True, separators=(",", ":"))` and hashes
the UTF-8 bytes with SHA-256.  The embedding models JSON values with
insertion-ordered objects (`Json`), the canonical serialization as
plain serialization after recursively sorting object keys (exactly what
`sort_keys=True` emits), and implements SHA-256 over byte lists.
Python floats in the payload are embedded as exact integers: the leaf
number rendering is deterministic per value and does not interact with
the key-ordering property. -/

/-- A JSON value; objects are insertion-ordered association lists,
as Python dicts are. -/
inductive Json where
  | null
  | bool (b : Bool)
  | num (n : Int)
  | str (s : String)
  | arr (xs : List Json)
  | obj (entries : List (String × Json))

/-- The sixteen lowercase hex digits. -/
def hexList : List Char := "0123456789abcdef".data

/-- Hex digit of `n % 16`. -/
def hexDigit (n : Nat) : Char := hexList.getD (n % 16) '0'

/-- A `\uXXXX` escape for a code unit below 2^16. -/
def uEscape (n : Nat) : List Char :=
  ['\\', 'u', hexDigit (n / 4096), hexDigit (n / 256),
   hexDigit (n / 16), hexDigit n]

/-- `json.dumps` string escaping with the default `ensure_ascii=True`:
printable ASCII passes through, the two-character escapes cover the
common controls, every other char becomes `\uXXXX` (a surrogate pair
for astral code points). -/
def jsonEscapeChar (c : Char) : List Char :=
  if c = '"' then ['\\', '"']
  else if c = '\\' then ['\\', '\\']
  else if c = '\n' then ['\\', 'n']
  else if c = '\t' then ['\\', 't']
  else if c = '\r' then ['\\', 'r']
  else if c.toNat = 8 then ['\\', 'b']
  else if c.toNat = 12 then ['\\', 'f']
  else if c.toNat < 32 ∨ c.toNat ≥ 127 then
    if c.toNat ≥ 65536 then
      uEscape (55296 + (c.toNat - 65536) / 1024) ++
        uEscape (56320 + (c.toNat - 65536) % 1024)
    else uEscape c.toNat
  else [c]

/-- A JSON string literal: quotes around the escaped characters. -/
def jsonQuote (s : String) : String :=
  String.mk ('"' :: s.data.flatMap jsonEscapeChar ++ ['"'])

/- Serialization with `separators=(",", ":")`: no whitespace. -/
mutual

def jsonDumps : Json → String
  | Json.null => "null"
  | Json.bool true => "true"
  | Json.bool false => "false"
  | Json.num n => toString n
  | Json.str s => jsonQuote s
  | Json.arr xs => "[" ++ String.intercalate "," (jsonDumpsList xs) ++ "]"
  | Json.obj l =>
      "\x7b" ++ String.intercalate "," (jsonDumpsPairs l) ++ "\x7d"

def jsonDumpsList : List Json → List String
  | [] => []
  | x :: xs => jsonDumps x :: jsonDumpsList xs

def jsonDumpsPairs : List (String × Json) → List String
  | [] => []
  | (k, v) :: rest =>
      (jsonQuote k ++ ":" ++ jsonDumps v) :: jsonDumpsPairs rest

end

/-- Comparison of object entries by key, the order `sort_keys=True`
sorts with (Python compares `str` by code points, as the
`String` linear order does). -/
def keyLe (p q : String × Json) : Prop := p.1 ≤ q.1

instance : DecidableRel keyLe :=
  fun p q => inferInstanceAs (Decidable (p.1 ≤ q.1))

instance : IsTotal (String × Json) keyLe :=
  ⟨fun a b => le_total a.1 b.1⟩

instance : IsTrans (String × Json) keyLe :=
  ⟨fun _ _ _ hab hbc => le_trans hab hbc⟩

/-- Stable sort of object entries by key. -/
def sortPairs (l : List (String × Json)) : List (String × Json) :=
  List.insertionSort keyLe l

/- Recursively sort every object's keys; serializing the result
plainly is exactly what `json.dumps(..., sort_keys=True)` prints. -/
mutual

def normalize : Json → Json
  | Json.null => Json.null
  | Json.bool b => Json.bool b
  | Json.num n => Json.num n
  | Json.str s => Json.str s
  | Json.arr xs => Json.arr (normalizeList xs)
  | Json.obj l => Json.obj (sortPairs (normalizePairs l))

def normalizeList : List Json → List Json
  | [] => []
  | x :: xs => normalize x :: normalizeList xs

def normalizePairs : List (String × Json) → List (String × Json)
  | [] => []
  | (k, v) :: rest => (k, normalize v) :: normalizePairs rest

end

/- Well-formedness of a value that came from a Python dict: object
keys are distinct at every level. -/
mutual

def wfJson : Json → Prop
  | Json.null => True
  | Json.bool _ => True
  | Json.num _ => True
  | Json.str _ => True
  | Json.arr xs => wfList xs
  | Json.obj l => (l.map (fun p => p.1)).Nodup ∧ wfPairs l

def wfList : List Json → Prop
  | [] => True
  | x :: xs => wfJson x ∧ wfList xs

def wfPairs : List (String × Json) → Prop
  | [] => True
  | (_, v) :: rest => wfJson v ∧ wfPairs rest

end

/- "Same key/value pairs in different insertion order, recursively":
two values are related when they differ only by permuting object
entries (at any depth). -/
mutual

inductive JEq : Json → Json → Prop where
  | null : JEq Json.null Json.null
  | bool (b : Bool) : JEq (Json.bool b) (Json.bool b)
  | num (n : Int) : JEq (Json.num n) (Json.num n)
  | str (s : String) : JEq (Json.str s) (Json.str s)
  | arr {xs ys : List Json} : JEqList xs ys →
      JEq (Json.arr xs) (Json.arr ys)
  | obj {l mid m : List (String × Json)} : JEqPairs l mid →
      mid.Perm m → JEq (Json.obj l) (Json.obj m)

inductive JEqList : List Json → List Json → Prop where
  | nil : JEqList [] []
  | cons {x y : Json} {xs ys : List Json} : JEq x y →
      JEqList xs ys → JEqList (x :: xs) (y :: ys)

inductive JEqPairs :
    List (String × Json) → List (String × Json) → Prop where
  | nil : JEqPairs [] []
  | cons {k : String} {v v' : Json} {l m : List (String × Json)} :
      JEq v v' → JEqPairs l m →
      JEqPairs ((k, v) :: l) ((k, v') :: m)

end

/-! ### SHA-256 (the `hashlib.sha256(...).hexdigest()` call), over byte
lists, per FIPS 180-4. -/

/-- Truncate to 32 bits. -/
def w32 (x : Nat) : Nat := x % 4294967296

/-- 32-bit right rotation. -/
def rotr (n x : Nat) : Nat := w32 ((x >>> n) ||| (x <<< (32 - n)))

/-- The 64 round constants (FIPS 180-4 section 4.2.2, in decimal). -/
def shaK : List Nat :=
  [1116352408, 1899447441, 3049323471,
   3921009573, 961987163, 1508970993,
   2453635748, 2870763221, 3624381080,
   310598401, 607225278, 1426881987,
   1925078388, 2162078206, 2614888103,
   3248222580, 3835390401, 4022224774,
   264347078, 604807628, 770255983,
   1249150122, 1555081692, 1996064986,
   2554220882, 2821834349, 2952996808,
   3210313671, 3336571891, 3584528711,
   113926993, 338241895, 666307205,
   773529912, 1294757372, 1396182291,
   1695183700, 1986661051, 2177026350,
   2456956037, 2730485921, 2820302411,
   3259730800, 3345764771, 3516065817,
   3600352804, 4094571909, 275423344,
   430227734, 506948616, 659060556,
   883997877, 958139571, 1322822218,
   1537002063, 1747873779, 1955562222,
   2024104815, 2227730452, 2361852424,
   2428436474, 2756734187, 3204031479,
   3329325298]

/-- The initial hash value (FIPS 180-4 section 5.3.3, in decimal). -/
def shaH0 : List Nat :=
  [1779033703, 3144134277, 1013904242,
   2773480762, 1359893119, 2600822924,
   528734635, 1541459225]

/-- Length in big-endian over 8 bytes. -/
def lenBytes (n : Nat) : List Nat :=
  [(n >>> 56) % 256, (n >>> 48) % 256, (n >>> 40) % 256,
   (n >>> 32) % 256, (n >>> 24) % 256, (n >>> 16) % 256,
   (n >>> 8) % 256, n % 256]

/-- Append the 0x80 byte, zero padding to 56 mod 64, and the bit
length. -/
def shaPad (msg : List Nat) : List Nat :=
  msg ++ [128] ++
    List.replicate ((55 + 64 - msg.length % 64) % 64) 0 ++
    lenBytes (msg.length * 8)

/-- Split the padded message into 64-byte blocks. -/
def chunks64 : List Nat → List (List Nat)
  | [] => []
  | a :: rest =>
      ((a :: rest).take 64) :: chunks64 ((a :: rest).drop 64)
termination_by l => l.length
decreasing_by
  simp only [List.length_drop, List.length_cons]
  omega

/-- The 16 initial 32-bit big-endian message words of a block. -/
def blockWords (block : List Nat) : List Nat :=
  (List.range 16).map (fun i =>
    w32 ((block.getD (4 * i) 0 <<< 24) |||
      (block.getD (4 * i + 1) 0 <<< 16) |||
      (block.getD (4 * i + 2) 0 <<< 8) |||
      block.getD (4 * i + 3) 0))

/-- Extend 16 message words to 64. -/
def extendWords (ws : List Nat) : List Nat :=
  (List.range 48).foldl (fun acc _ =>
    let i := acc.length
    let x15 := acc.getD (i - 15) 0
    let x2 := acc.getD (i - 2) 0
    let s0 := rotr 7 x15 ^^^ rotr 18 x15 ^^^ (x15 >>> 3)
    let s1 := rotr 17 x2 ^^^ rotr 19 x2 ^^^ (x2 >>> 10)
    acc ++ [w32 (acc.getD (i - 16) 0 + s0 + acc.getD (i - 7) 0 + s1)])
    ws

/-- Working state of the compression rounds. -/
structure ShaState where
  a : Nat
  b : Nat
  c : Nat
  d : Nat
  e : Nat
  f : Nat
  g : Nat
  hh : Nat

/-- One compression round. -/
def roundStep (k w : Nat) (s : ShaState) : ShaState :=
  let bigS1 := rotr 6 s.e ^^^ rotr 11 s.e ^^^ rotr 25 s.e
  let ch := (s.e &&& s.f) ^^^ ((s.e ^^^ 4294967295) &&& s.g)
  let temp1 := w32 (s.hh + bigS1 + ch + k + w)
  let bigS0 := rotr 2 s.a ^^^ rotr 13 s.a ^^^ rotr 22 s.a
  let maj := (s.a &&& s.b) ^^^ (s.a &&& s.c) ^^^ (s.b &&& s.c)
  let temp2 := w32 (bigS0 + maj)
  ⟨w32 (temp1 + temp2), s.a, s.b, s.c, w32 (s.d + temp1),
    s.e, s.f, s.g⟩

/-- Compress one block into the running hash (eight 32-bit words). -/
def shaCompress (hs : List Nat) (block : List Nat) : List Nat :=
  let ws := extendWords (blockWords block)
  let init : ShaState :=
    ⟨hs.getD 0 0, hs.getD 1 0, hs.getD 2 0, hs.getD 3 0,
     hs.getD 4 0, hs.getD 5 0, hs.getD 6 0, hs.getD 7 0⟩
  let s := (List.range 64).foldl
    (fun st i => roundStep (shaK.getD i 0) (ws.getD i 0) st) init
  [w32 (hs.getD 0 0 + s.a), w32 (hs.getD 1 0 + s.b),
   w32 (hs.getD 2 0 + s.c), w32 (hs.getD 3 0 + s.d),
   w32 (hs.getD 4 0 + s.e), w32 (hs.getD 5 0 + s.f),
   w32 (hs.getD 6 0 + s.g), w32 (hs.getD 7 0 + s.hh)]

/-- The eight final hash words of a byte message. -/
def sha256Words (msg : List Nat) : List Nat :=
  (chunks64 (shaPad msg)).foldl shaCompress shaH0

/-- Eight hex chars of a 32-bit word, most significant first. -/
def wordHex (x : Nat) : List Char :=
  [hexDigit (x / 268435456), hexDigit (x / 16777216),
   hexDigit (x / 1048576), hexDigit (x / 65536),
   hexDigit (x / 4096), hexDigit (x / 256),
   hexDigit (x / 16), hexDigit x]

/-- `hashlib.sha256(bytes).hexdigest()`. -/
def sha256hex (msg : List Nat) : String :=
  String.mk ((sha256Words msg).flatMap wordHex)

/-- UTF-8 encoding of one code point. -/
def utf8Char (c : Char) : List Nat :=
  let n := c.toNat
  if n < 128 then [n]
  else if n < 2048 then [192 + n / 64, 128 + n % 64]
  else if n < 65536 then
    [224 + n / 4096, 128 + (n / 64) % 64, 128 + n % 64]
  else
    [240 + n / 262144, 128 + (n / 4096) % 64, 128 + (n / 64) % 64,
     128 + n % 64]

/-- `.encode("utf-8")`. -/
def utf8Encode (cs : List Char) : List Nat := cs.flatMap utf8Char

/-- `compute_encoding_signature(model_version, window_size_seconds,
target_sample_rate, feature_config)`
(src/humpback/processing/signature.py lines 6-20): SHA-256 hex digest
of the canonical (key-sorted, compact-separator) JSON serialization of
the four-field payload; `None` feature config serializes as `null`. -/
def compute_encoding_signature (model_version : String)
    (window_size_seconds : Int) (target_sample_rate : Int)
    (feature_config : Option Json) : String :=
  let payload : Json := Json.obj
    [("model_version", Json.str model_version),
     ("window_size_seconds", Json.num window_size_seconds),
     ("target_sample_rate", Json.num target_sample_rate),
     ("feature_config", feature_config.getD Json.null)]
  let canonical := jsonDumps (normalize payload)
  sha256hex (utf8Encode canonical.data)

theorem normalizePairs_eq_map (l : List (String × Json)) :
    normalizePairs l = l.map (fun p => (p.1, normalize p.2)) := by
  induction l with
  | nil => rfl
  | cons p rest ih =>
    obtain ⟨k, v⟩ := p
    rw [normalizePairs, ih]
    rfl

theorem sortPairs_eq_of_perm {l₁ l₂ : List (String × Json)}
    (hp : l₁.Perm l₂) (hn : (l₁.map (fun p => p.1)).Nodup) :
    sortPairs l₁ = sortPairs l₂ := by
  have hperm : (sortPairs l₁).Perm (sortPairs l₂) :=
    (List.perm_insertionSort keyLe l₁).trans
      (hp.trans (List.perm_insertionSort keyLe l₂).symm)
  have hstrict : ∀ l : List (String × Json),
      (l.map (fun p => p.1)).Nodup →
      List.Pairwise (fun p q : String × Json => p.1 < q.1)
        (sortPairs l) := by
    intro l hnd
    have hsorted : List.Sorted keyLe (sortPairs l) :=
      List.sorted_insertionSort keyLe l
    have hnd' : ((sortPairs l).map (fun p => p.1)).Nodup :=
      (((List.perm_insertionSort keyLe l).map
        (fun p => p.1)).nodup_iff).mpr hnd
    have hne : List.Pairwise
        (fun p q : String × Json => p.1 ≠ q.1) (sortPairs l) :=
      List.pairwise_map.mp hnd'
    exact (hsorted.and hne).imp
      (fun h => lt_of_le_of_ne h.1 h.2)
  have hn₂ : (l₂.map (fun p => p.1)).Nodup :=
    ((hp.map (fun p => p.1)).nodup_iff).mp hn
  haveI : IsAntisymm (String × Json)
      (fun p q : String × Json => p.1 < q.1) :=
    ⟨fun a b hab hba => absurd (lt_trans hab hba) (lt_irrefl _)⟩
  exact List.eq_of_perm_of_sorted hperm (hstrict l₁ hn)
    (hstrict l₂ hn₂)

theorem jeqReflAux : ∀ n : Nat,
    (∀ a : Json, sizeOf a ≤ n → JEq a a) ∧
    (∀ xs : List Json, sizeOf xs ≤ n → JEqList xs xs) ∧
    (∀ l : List (String × Json), sizeOf l ≤ n → JEqPairs l l) := by
  intro n
  induction n using Nat.strong_induction_on with
  | _ n ih =>
    refine ⟨?_, ?_, ?_⟩
    · intro a hsz
      cases a with
      | null => exact JEq.null
      | bool b => exact JEq.bool b
      | num m => exact JEq.num m
      | str s => exact JEq.str s
      | arr xs =>
        have hlt : sizeOf xs < n := by
          have : sizeOf xs < sizeOf (Json.arr xs) := by simp
          omega
        exact JEq.arr ((ih (sizeOf xs) hlt).2.1 xs le_rfl)
      | obj l =>
        have hlt : sizeOf l < n := by
          have : sizeOf l < sizeOf (Json.obj l) := by simp
          omega
        exact JEq.obj ((ih (sizeOf l) hlt).2.2 l le_rfl)
          (List.Perm.refl l)
    · intro xs hsz
      cases xs with
      | nil => exact JEqList.nil
      | cons x rest =>
        have hx : sizeOf x < n := by
          have : sizeOf x < sizeOf (x :: rest) := by
            simp only [List.cons.sizeOf_spec]
            omega
          omega
        have hrest : sizeOf rest < n := by
          have : sizeOf rest < sizeOf (x :: rest) := by
            simp only [List.cons.sizeOf_spec]
            omega
          omega
        exact JEqList.cons ((ih (sizeOf x) hx).1 x le_rfl)
          ((ih (sizeOf rest) hrest).2.1 rest le_rfl)
    · intro l hsz
      cases l with
      | nil => exact JEqPairs.nil
      | cons p rest =>
        obtain ⟨k, v⟩ := p
        have hv : sizeOf v < n := by
          have : sizeOf v < sizeOf ((k, v) :: rest) := by
            simp only [List.cons.sizeOf_spec, Prod.mk.sizeOf_spec]
            omega
          omega
        have hrest : sizeOf rest < n := by
          have : sizeOf rest < sizeOf ((k, v) :: rest) := by
            simp only [List.cons.sizeOf_spec]
            omega
          omega
        exact JEqPairs.cons ((ih (sizeOf v) hv).1 v le_rfl)
          ((ih (sizeOf rest) hrest).2.2 rest le_rfl)

/-- `JEq` is reflexive. -/
theorem jeq_refl (a : Json) : JEq a a :=
  (jeqReflAux (sizeOf a)).1 a le_rfl

theorem normEqAux : ∀ n : Nat,
    (∀ a b : Json, sizeOf a ≤ n → JEq a b → wfJson a →
      normalize a = normalize b) ∧
    (∀ xs ys : List Json, sizeOf xs ≤ n → JEqList xs ys → wfList xs →
      normalizeList xs = normalizeList ys) ∧
    (∀ l m : List (String × Json), sizeOf l ≤ n → JEqPairs l m →
      wfPairs l → normalizePairs l = normalizePairs m) := by
  intro n
  induction n using Nat.strong_induction_on with
  | _ n ih =>
    refine ⟨?_, ?_, ?_⟩
    · intro a b hsz h hwf
      cases h with
      | null => rfl
      | bool b => rfl
      | num m => rfl
      | str s => rfl
      | arr hlist =>
        rename_i xs ys
        simp only [wfJson] at hwf
        have hlt : sizeOf xs < n := by
          have : sizeOf xs < sizeOf (Json.arr xs) := by simp
          omega
        have hxs := (ih (sizeOf xs) hlt).2.1 xs ys le_rfl hlist hwf
        simp only [normalize]
        rw [hxs]
      | obj hpairs hperm =>
        rename_i l mid m
        simp only [wfJson] at hwf
        have hlt : sizeOf l < n := by
          have : sizeOf l < sizeOf (Json.obj l) := by simp
          omega
        have hvals := (ih (sizeOf l) hlt).2.2 l mid le_rfl hpairs hwf.2
        have hperm' : (normalizePairs mid).Perm (normalizePairs m) := by
          rw [normalizePairs_eq_map, normalizePairs_eq_map]
          exact hperm.map _
        have hkeys : ((normalizePairs l).map (fun p => p.1)).Nodup := by
          rw [normalizePairs_eq_map, List.map_map]
          exact hwf.1
        simp only [normalize]
        rw [hvals, sortPairs_eq_of_perm hperm' (by rw [← hvals]; exact hkeys)]
    · intro xs ys hsz h hwf
      cases h with
      | nil => rfl
      | cons hx hrest =>
        rename_i x y xs' ys'
        simp only [wfList] at hwf
        have hltx : sizeOf x < n := by
          have : sizeOf x < sizeOf (x :: xs') := by
            simp only [List.cons.sizeOf_spec]
            omega
          omega
        have hltr : sizeOf xs' < n := by
          have : sizeOf xs' < sizeOf (x :: xs') := by
            simp only [List.cons.sizeOf_spec]
            omega
          omega
        simp only [normalizeList]
        rw [(ih (sizeOf x) hltx).1 x y le_rfl hx hwf.1,
          (ih (sizeOf xs') hltr).2.1 xs' ys' le_rfl hrest hwf.2]
    · intro l m hsz h hwf
      cases h with
      | nil => rfl
      | cons hv hrest =>
        rename_i k v v' l' m'
        simp only [wfPairs] at hwf
        have hltv : sizeOf v < n := by
          have : sizeOf v < sizeOf ((k, v) :: l') := by
            simp only [List.cons.sizeOf_spec, Prod.mk.sizeOf_spec]
            omega
          omega
        have hltr : sizeOf l' < n := by
          have : sizeOf l' < sizeOf ((k, v) :: l') := by
            simp only [List.cons.sizeOf_spec]
            omega
          omega
        simp only [normalizePairs]
        rw [(ih (sizeOf v) hltv).1 v v' le_rfl hv hwf.1,
          (ih (sizeOf l') hltr).2.2 l' m' le_rfl hrest hwf.2]

/-- `normalize` maps `JEq`-related well-formed values to the same
canonical value: key order never influences the canonical form. -/
theorem normalize_eq_of_jeq {a b : Json} (h : JEq a b)
    (hwf : wfJson a) : normalize a = normalize b :=
  (normEqAux (sizeOf a)).1 a b le_rfl h hwf

theorem getD_mem_or_eq {α : Type} (l : List α) (i : Nat) (d : α) :
    l.getD i d ∈ l ∨ l.getD i d = d := by
  induction l generalizing i with
  | nil => exact Or.inr rfl
  | cons a t ih =>
    cases i with
    | zero => exact Or.inl (List.mem_cons_self _ _)
    | succ j =>
      rcases ih j with h | h
      · exact Or.inl (List.mem_cons_of_mem _ h)
      · exact Or.inr h

theorem hexDigit_mem (n : Nat) : hexDigit n ∈ hexList := by
  rcases getD_mem_or_eq hexList (n % 16) '0' with h | h
  · exact h
  · rw [hexDigit, h]
    decide

theorem foldl_shaCompress_length (blocks : List (List Nat)) :
    ∀ hs : List Nat, hs.length = 8 →
      (blocks.foldl shaCompress hs).length = 8 := by
  induction blocks with
  | nil => intro hs h; exact h
  | cons b rest ih =>
    intro hs _
    exact ih (shaCompress hs b) rfl

theorem sha256Words_length (msg : List Nat) :
    (sha256Words msg).length = 8 :=
  foldl_shaCompress_length (chunks64 (shaPad msg)) shaH0 rfl

theorem flatMap_wordHex_length (ws : List Nat) :
    (ws.flatMap wordHex).length = 8 * ws.length := by
  induction ws with
  | nil => rfl
  | cons w rest ih =>
    rw [List.flatMap_cons, List.length_append, ih, List.length_cons]
    show 8 + 8 * rest.length = 8 * (rest.length + 1)
    omega

/-- Every SHA-256 hex digest has exactly 64 characters. -/
theorem sha256hex_length (msg : List Nat) :
    (sha256hex msg).length = 64 := by
  show ((sha256Words msg).flatMap wordHex).length = 64
  rw [flatMap_wordHex_length, sha256Words_length]

/-- Every character of a SHA-256 hex digest is a lowercase hex
digit. -/
theorem sha256hex_chars (msg : List Nat) :
    ∀ c ∈ (sha256hex msg).data, c ∈ hexList := by
  intro c hc
  have hdata : (sha256hex msg).data =
      (sha256Words msg).flatMap wordHex := rfl
  rw [hdata] at hc
  obtain ⟨w, -, hcw⟩ := List.mem_flatMap.mp hc
  simp only [wordHex, List.mem_cons, List.not_mem_nil, or_false]
    at hcw
  rcases hcw with rfl | rfl | rfl | rfl | rfl | rfl | rfl | rfl <;>
    exact hexDigit_mem _

/-- C7: the signature is a pure function of its four arguments
(a Lean function is deterministic by construction); it always produces
a 64-character digest made of hex digits; and reordering the key/value
pairs of the feature-config map — at any nesting depth — never changes
the digest. -/
theorem compute_encoding_signature_spec (mv : String)
    (wsec rate : Int) (d d' : Json)
    (hwf : wfJson d) (heq : JEq d d') :
    (∀ cfg : Option Json,
      (compute_encoding_signature mv wsec rate cfg).length = 64) ∧
    (∀ cfg : Option Json,
      ∀ c ∈ (compute_encoding_signature mv wsec rate cfg).data,
        c ∈ hexList) ∧
    compute_encoding_signature mv wsec rate (some d) =
      compute_encoding_signature mv wsec rate (some d') := by
  refine ⟨fun cfg => sha256hex_length _, fun cfg => sha256hex_chars _,
    ?_⟩
  have hpay : JEq
      (Json.obj
        [("model_version", Json.str mv),
         ("window_size_seconds", Json.num wsec),
         ("target_sample_rate", Json.num rate),
         ("feature_config", d)])
      (Json.obj
        [("model_version", Json.str mv),
         ("window_size_seconds", Json.num wsec),
         ("target_sample_rate", Json.num rate),
         ("feature_config", d')]) :=
    JEq.obj
      (JEqPairs.cons (jeq_refl _)
        (JEqPairs.cons (jeq_refl _)
          (JEqPairs.cons (jeq_refl _)
            (JEqPairs.cons heq JEqPairs.nil))))
      (List.Perm.refl _)
  have hwfpay : wfJson
      (Json.obj
        [("model_version", Json.str mv),
         ("window_size_seconds", Json.num wsec),
         ("target_sample_rate", Json.num rate),
         ("feature_config", d)]) := by
    simp only [wfJson, wfPairs, and_true, true_and]
    exact ⟨by simp only [List.map_cons, List.map_nil]; decide, hwf⟩
  have hnorm := normalize_eq_of_jeq hpay hwfpay
  rw [compute_encoding_signature, compute_encoding_signature]
  simp only [Option.getD_some]
  rw [hnorm]

/-- Two feature-config maps with the same pairs in opposite insertion
order, the nested map also reordered. -/
def cfgC7 : Json :=
  Json.obj [("a", Json.num 1),
            ("b", Json.obj [("x", Json.num 2), ("y", Json.num 3)])]

def cfgC7' : Json :=
  Json.obj [("b", Json.obj [("y", Json.num 3), ("x", Json.num 2)]),
            ("a", Json.num 1)]

theorem cfgC7_jeq : JEq cfgC7 cfgC7' :=
  JEq.obj
    (JEqPairs.cons (jeq_refl _)
      (JEqPairs.cons
        (JEq.obj
          (JEqPairs.cons (jeq_refl _)
            (JEqPairs.cons (jeq_refl _) JEqPairs.nil))
          (List.Perm.swap _ _ _))
        JEqPairs.nil))
    (List.Perm.swap _ _ _)

theorem compute_encoding_signature_spec_witness :
    wfJson cfgC7 ∧
    ((∀ cfg : Option Json,
      (compute_encoding_signature "perch_v1" 5 16000 cfg).length = 64) ∧
    (∀ cfg : Option Json,
      ∀ c ∈ (compute_encoding_signature "perch_v1" 5 16000 cfg).data,
        c ∈ hexList) ∧
    compute_encoding_signature "perch_v1" 5 16000 (some cfgC7) =
      compute_encoding_signature "perch_v1" 5 16000 (some cfgC7')) :=
  ⟨by simp only [cfgC7, wfJson, wfPairs, and_true, true_and]
      refine ⟨?_, ?_⟩ <;> (simp only [List.map_cons, List.map_nil]; decide),
   compute_encoding_signature_spec "perch_v1" 5 16000 cfgC7 cfgC7'
     (by simp only [cfgC7, wfJson, wfPairs, and_true, true_and]
         refine ⟨?_, ?_⟩ <;>
           (simp only [List.map_cons, List.map_nil]; decide))
     cfgC7_jeq⟩

/-! ### Processing job submission
(src/humpback/services/processing_service.py lines 12-67)

`create_processing_job` resolves the model version (request value,
else registry default, else "perch_v1"), computes the encoding
signature, and — whether or not an EmbeddingSet already exists for
(audio file, signature) — inserts one new ProcessingJob row: in status
`complete` with `skipped=true` on the duplicate path, in the default
status `queued` with `skipped=false` otherwise.  It never inserts an
EmbeddingSet. -/
def create_processing_job
    (sets : List EmbeddingSet) (jobs : List ProcessingJob)
    (audioFileId : Nat) (modelVersion : Option String)
    (windowSizeSeconds targetSampleRate : Int)
    (featureConfig : Option Json)
    (registryDefault : Option String)
    (newId now : Nat) :
    (ProcessingJob × Bool) × List ProcessingJob × List EmbeddingSet :=
  let mv := modelVersion.getD (registryDefault.getD "perch_v1")
  let signature := compute_encoding_signature mv windowSizeSeconds
    targetSampleRate featureConfig
  if sets.any (fun es => es.audioFileId == audioFileId &&
      es.encodingSignature == signature) then
    let job : ProcessingJob :=
      ⟨newId, signature, now, now, JobStatus.complete, none⟩
    ((job, true), jobs ++ [job], sets)
  else
    let job : ProcessingJob :=
      ⟨newId, signature, now, now, JobStatus.queued, none⟩
    ((job, false), jobs ++ [job], sets)

/-- C6: when an EmbeddingSet already exists for the audio file and the
signature of the submitted configuration, resubmission returns
`skipped = true` with the new job already in status `complete`, and the
embedding-set table is unchanged (no second EmbeddingSet); the
duplicate still just appends one job row — it is not an error. -/
theorem create_processing_job_skips_duplicate
    (sets : List EmbeddingSet) (jobs : List ProcessingJob)
    (audioFileId : Nat) (modelVersion : Option String)
    (wsec rate : Int) (cfg : Option Json)
    (registryDefault : Option String) (newId now : Nat)
    (es : EmbeddingSet) (hes : es ∈ sets)
    (haud : es.audioFileId = audioFileId)
    (hsig : es.encodingSignature = compute_encoding_signature
      (modelVersion.getD (registryDefault.getD "perch_v1"))
      wsec rate cfg) :
    (create_processing_job sets jobs audioFileId modelVersion wsec rate
      cfg registryDefault newId now).1.2 = true ∧
    (create_processing_job sets jobs audioFileId modelVersion wsec rate
      cfg registryDefault newId now).1.1.status = JobStatus.complete ∧
    (create_processing_job sets jobs audioFileId modelVersion wsec rate
      cfg registryDefault newId now).2.2 = sets ∧
    (create_processing_job sets jobs audioFileId modelVersion wsec rate
      cfg registryDefault newId now).2.1 =
      jobs ++ [(create_processing_job sets jobs audioFileId modelVersion
        wsec rate cfg registryDefault newId now).1.1] := by
  have hcond : sets.any (fun e => e.audioFileId == audioFileId &&
      e.encodingSignature == compute_encoding_signature
        (modelVersion.getD (registryDefault.getD "perch_v1"))
        wsec rate cfg) = true :=
    List.any_eq_true.mpr ⟨es, hes, by rw [haud, hsig] at *; simp⟩
  have hres : create_processing_job sets jobs audioFileId modelVersion
      wsec rate cfg registryDefault newId now =
      ((⟨newId, compute_encoding_signature
          (modelVersion.getD (registryDefault.getD "perch_v1"))
          wsec rate cfg, now, now, JobStatus.complete, none⟩, true),
        jobs ++ [⟨newId, compute_encoding_signature
          (modelVersion.getD (registryDefault.getD "perch_v1"))
          wsec rate cfg, now, now, JobStatus.complete, none⟩], sets) := by
    rw [create_processing_job]
    simp only [hcond, if_true]
  rw [hres]
  exact ⟨rfl, rfl, rfl, rfl⟩

/-- One existing EmbeddingSet matching the resubmitted configuration
exactly. -/
def esC6 : EmbeddingSet :=
  ⟨1, 2, compute_encoding_signature "m" 5 16000 none, [0, 1]⟩

theorem create_processing_job_skips_duplicate_witness :
    esC6 ∈ [esC6] ∧ esC6.audioFileId = 2 ∧
    esC6.encodingSignature = compute_encoding_signature
      ((some "m").getD ((none : Option String).getD "perch_v1"))
      5 16000 none ∧
    ((create_processing_job [esC6] [] 2 (some "m") 5 16000 none none
      7 3).1.2 = true ∧
    (create_processing_job [esC6] [] 2 (some "m") 5 16000 none none
      7 3).1.1.status = JobStatus.complete ∧
    (create_processing_job [esC6] [] 2 (some "m") 5 16000 none none
      7 3).2.2 = [esC6] ∧
    (create_processing_job [esC6] [] 2 (some "m") 5 16000 none none
      7 3).2.1 =
      [] ++ [(create_processing_job [esC6] [] 2 (some "m") 5 16000 none
        none 7 3).1.1]) :=
  ⟨List.mem_singleton.mpr rfl, rfl, rfl,
    create_processing_job_skips_duplicate [esC6] [] 2 (some "m") 5
      16000 none none 7 3 esC6 (List.mem_singleton.mpr rfl) rfl rfl⟩

/-- C10: every submission appends exactly one new ProcessingJob row and
never touches the EmbeddingSet table; on the short-circuit path the row
is created directly in status `complete` — never `queued`, and never
claimable, since `claim_processing_job` only considers `queued` rows —
while on the normal path it is created `queued`. -/
theorem create_processing_job_always_inserts
    (sets : List EmbeddingSet) (jobs : List ProcessingJob)
    (audioFileId : Nat) (modelVersion : Option String)
    (wsec rate : Int) (cfg : Option Json)
    (registryDefault : Option String) (newId now : Nat)
    (_h : 0 ≤ newId) :
    (create_processing_job sets jobs audioFileId modelVersion wsec rate
      cfg registryDefault newId now).2.1 =
      jobs ++ [(create_processing_job sets jobs audioFileId modelVersion
        wsec rate cfg registryDefault newId now).1.1] ∧
    (create_processing_job sets jobs audioFileId modelVersion wsec rate
      cfg registryDefault newId now).2.2 = sets ∧
    ((create_processing_job sets jobs audioFileId modelVersion wsec rate
      cfg registryDefault newId now).1.2 = true →
      (create_processing_job sets jobs audioFileId modelVersion wsec
        rate cfg registryDefault newId now).1.1.status =
          JobStatus.complete ∧
      ∀ q : List ProcessingJob, eligibleB q
        (create_processing_job sets jobs audioFileId modelVersion wsec
          rate cfg registryDefault newId now).1.1 = false) ∧
    ((create_processing_job sets jobs audioFileId modelVersion wsec rate
      cfg registryDefault newId now).1.2 = false →
      (create_processing_job sets jobs audioFileId modelVersion wsec
        rate cfg registryDefault newId now).1.1.status =
          JobStatus.queued) := by
  by_cases hcond : sets.any (fun e => e.audioFileId == audioFileId &&
      e.encodingSignature == compute_encoding_signature
        (modelVersion.getD (registryDefault.getD "perch_v1"))
        wsec rate cfg) = true
  · have hres : create_processing_job sets jobs audioFileId
        modelVersion wsec rate cfg registryDefault newId now =
        ((⟨newId, compute_encoding_signature
            (modelVersion.getD (registryDefault.getD "perch_v1"))
            wsec rate cfg, now, now, JobStatus.complete, none⟩, true),
          jobs ++ [⟨newId, compute_encoding_signature
            (modelVersion.getD (registryDefault.getD "perch_v1"))
            wsec rate cfg, now, now, JobStatus.complete, none⟩],
          sets) := by
      rw [create_processing_job]
      simp only [hcond, if_true]
    rw [hres]
    exact ⟨rfl, rfl, fun _ => ⟨rfl, fun q => rfl⟩,
      fun hfalse => Bool.noConfusion hfalse⟩
  · rw [Bool.not_eq_true] at hcond
    have hres : create_processing_job sets jobs audioFileId
        modelVersion wsec rate cfg registryDefault newId now =
        ((⟨newId, compute_encoding_signature
            (modelVersion.getD (registryDefault.getD "perch_v1"))
            wsec rate cfg, now, now, JobStatus.queued, none⟩, false),
          jobs ++ [⟨newId, compute_encoding_signature
            (modelVersion.getD (registryDefault.getD "perch_v1"))
            wsec rate cfg, now, now, JobStatus.queued, none⟩],
          sets) := by
      rw [create_processing_job]
      simp only [hcond, Bool.false_eq_true, if_false]
    rw [hres]
    exact ⟨rfl, rfl, fun htrue => Bool.noConfusion htrue, fun _ => rfl⟩

theorem create_processing_job_always_inserts_witness :
    0 ≤ 7 ∧
    ((create_processing_job [] [] 3 none 5 16000 none none 7 4).2.1 =
      [] ++ [(create_processing_job [] [] 3 none 5 16000 none none
        7 4).1.1] ∧
    (create_processing_job [] [] 3 none 5 16000 none none 7 4).2.2 =
      [] ∧
    ((create_processing_job [] [] 3 none 5 16000 none none 7 4).1.2 =
        true →
      (create_processing_job [] [] 3 none 5 16000 none none
        7 4).1.1.status = JobStatus.complete ∧
      ∀ q : List ProcessingJob, eligibleB q
        (create_processing_job [] [] 3 none 5 16000 none none
          7 4).1.1 = false) ∧
    ((create_processing_job [] [] 3 none 5 16000 none none 7 4).1.2 =
        false →
      (create_processing_job [] [] 3 none 5 16000 none none
        7 4).1.1.status = JobStatus.queued)) :=
  ⟨by omega,
    create_processing_job_always_inserts [] [] 3 none 5 16000 none none
      7 4 (by omega)⟩

end Humpback
